import Mathlib

/-!
Verification development for the multi-provider AI model comparison engine
(NestJS backend: `comparison.service.ts`, `langchain.service.ts`,
`database.service.ts`).  The backend's data model and the streaming fan-out
run are embedded shallowly: JS numbers are modelled as `ℚ` (token counts,
which are integral, as `ℕ`), nullable columns as `Option`, the per-model
streams of the LangChain SDK as black-box behaviours, and the concurrent
interleaving of the per-model callback events as an explicit event trace
constrained by an `Interleaves` relation.
-/

namespace AIPG

/-- Lifecycle status of a `ModelResponse` row (`model-response.entity.ts`). -/
inductive RespStatus where
  | pending
  | streaming
  | completed
  | error
deriving DecidableEq

/-- Lifecycle status of a `ComparisonSession` row (`comparison-session.entity.ts`). -/
inductive SessStatus where
  | pending
  | in_progress
  | completed
  | failed
deriving DecidableEq

/-- A `model_responses` row.  The metric columns are nullable in the entity and
are populated only when the response is finalised; `response` is initialised to
the empty string by `createModelResponse`. -/
structure ModelResponse where
  id : Nat
  sessionId : String
  modelId : String
  provider : String
  response : String
  status : RespStatus
  inputTokens : Option Nat
  outputTokens : Option Nat
  cost : Option ℚ
  responseTimeMs : Option Nat
  errorMessage : Option String
deriving DecidableEq

/-- A `comparison_sessions` row. -/
structure Session where
  id : String
  prompt : String
  status : SessStatus
  totalTokens : Nat
  totalCost : ℚ
  averageResponseTime : ℚ
  userId : String
deriving DecidableEq

/-- The metrics object passed to `onComplete` by `LangChainService.streamResponse`. -/
structure Metrics where
  inputTokens : Nat
  outputTokens : Nat
  cost : ℚ
  responseTimeMs : Nat
deriving DecidableEq

/-- Per-1K-token pricing entry of `LangChainService.getPricing`. -/
structure Pricing where
  input : ℚ
  output : ℚ
deriving DecidableEq

/-- An entry of the registry built by `getAvailableModels`: a configured model
identifier together with its provider name. -/
structure ModelInfo where
  id : String
  provider : String
deriving DecidableEq

/-- Embeds `LangChainService.getPricing`: the static pricing table; an unknown model
identifier falls back to zero rates. -/
def getPricing (modelId : String) : Pricing :=
  if modelId = "gpt-3.5-turbo" then ⟨15/10000, 2/1000⟩
  else if modelId = "gpt-4" then ⟨3/100, 6/100⟩
  else if modelId = "claude-sonnet-4-20250514" then ⟨3/1000, 15/1000⟩
  else if modelId = "claude-3-5-haiku-20241022" then ⟨25/100000, 125/100000⟩
  else if modelId = "gemini-2.5-flash-lite" then ⟨1/10000, 4/10000⟩
  else if modelId = "gemini-2.0-flash" then ⟨1/10000, 4/10000⟩
  else ⟨0, 0⟩

/-- Embeds `LangChainService.calculateCost`: inputTokens/1000 × input rate plus
outputTokens/1000 × output rate. -/
def calculateCost (modelId : String) (inputTokens outputTokens : Nat) : ℚ :=
  let pricing := getPricing modelId
  (inputTokens : ℚ) / 1000 * pricing.input + (outputTokens : ℚ) / 1000 * pricing.output

/-- Number of word starts in a character list: positions holding a
non-whitespace character whose predecessor (or the left edge, for the first
position) is whitespace.  For a trimmed string this is exactly the length of
the JS `split` on runs of whitespace. -/
def wordStarts : List Char → Bool → Nat
  | [], _ => 0
  | c :: rest, prevWs =>
    (if !c.isWhitespace && prevWs then 1 else 0) + wordStarts rest c.isWhitespace

/-- Embeds the `text.trim().split(ws).length` of `estimateTokens`: the trimmed text is
split on runs of whitespace.  The JS split of the empty string yields a single
empty fragment, hence count 1 there; otherwise the fragments are the maximal
runs of non-whitespace characters, counted by their start positions. -/
def wordCount (text : String) : Nat :=
  let t := text.trim
  if t = "" then 1 else wordStarts t.data true

/-- Embeds `LangChainService.estimateTokens`: the fallback token estimator.  Empty
text returns 0 before any estimation; otherwise the result is the larger of
the word-based estimate (words × 1.3, rounded up) and the character-based
estimate (characters ÷ 3.5, rounded up), with a final floor of 1. -/
def estimateTokens (text : String) : Nat :=
  if text.length = 0 then 0
  else
    let words := wordCount text
    let characters := text.length
    let wordBasedTokens := Nat.ceil ((words : ℚ) * 13 / 10)
    let charBasedTokens := Nat.ceil ((characters : ℚ) / (35 / 10))
    let estimatedTokens := max wordBasedTokens charBasedTokens
    max estimatedTokens 1

/-- Embeds `DatabaseService.getSession`: look a session up by id scoped to the owning
user (`findOne` on both `id` and `userId`), returning the first match or
nothing. -/
def getSession (table : List Session) (sessionId userId : String) : Option Session :=
  table.find? (fun s => s.id = sessionId ∧ s.userId = userId)

/-- Embeds `ComparisonService.getComparison`: fetch the scoped session and throw
`Session ... not found` when the lookup comes back empty.  The field-by-field
projection of the found session into the response DTO is presentation plumbing
and is modelled as returning the row itself. -/
def getComparison (table : List Session) (sessionId userId : String) :
    Except String Session :=
  match getSession table sessionId userId with
  | none => Except.error ("Session " ++ sessionId ++ " not found")
  | some s => Except.ok s

/-- The prompt field of one history summary
(`ComparisonService.getComparisonHistory`): the JS
`prompt.substring(0, 100)`, modelled as taking the first 100 characters,
followed by an ellipsis exactly when the prompt is longer than 100
characters. -/
def historyPrompt (p : String) : String :=
  String.mk (p.data.take 100) ++ (if 100 < p.length then "..." else "")

/-- One entry of the history listing.  `createdAt` and the response count are
omitted (dates and the relation join are plumbing not bearing on any claim). -/
structure HistoryItem where
  id : String
  prompt : String
  status : SessStatus
  totalTokens : Nat
  totalCost : ℚ
  averageResponseTime : ℚ
deriving DecidableEq

/-- Embeds `ComparisonService.getComparisonHistory` applied to the page of sessions
returned by `DatabaseService.getSessions`: each session is summarised, its
prompt truncated through `historyPrompt`. -/
def getComparisonHistory (sessions : List Session) : List HistoryItem :=
  sessions.map (fun s =>
    { id := s.id
      prompt := historyPrompt s.prompt
      status := s.status
      totalTokens := s.totalTokens
      totalCost := s.totalCost
      averageResponseTime := s.averageResponseTime })

/-- Embeds `DatabaseService.updateSessionMetrics`: fetch the responses of the session
that are in `completed` status and recompute the session aggregates from them —
total tokens as the sum of input plus output tokens (null read as 0, as the
JS `|| 0` does), total cost as the sum of costs, and average response time as
the arithmetic mean of the response times, or 0 when nothing completed. -/
def updateSessionMetrics (sid : String) (table : List ModelResponse) (s : Session) :
    Session :=
  let responses := table.filter (fun r => r.sessionId = sid ∧ r.status = RespStatus.completed)
  let totalTokens := responses.foldl (fun sum r => sum + r.inputTokens.getD 0 + r.outputTokens.getD 0) 0
  let totalCost := responses.foldl (fun sum r => sum + r.cost.getD 0) (0 : ℚ)
  let averageResponseTime : ℚ :=
    if 0 < responses.length then
      ((responses.foldl (fun sum r => sum + r.responseTimeMs.getD 0) 0 : ℕ) : ℚ)
        / (responses.length : ℚ)
    else 0
  { s with totalTokens := totalTokens, totalCost := totalCost,
           averageResponseTime := averageResponseTime }

/-- One callback event delivered by the fan-out: a text chunk, a completion
with metrics, or a per-model error. -/
inductive Event where
  | chunk (modelId : String) (text : String)
  | complete (modelId : String) (metrics : Metrics)
  | error (modelId : String) (message : String)
deriving DecidableEq

/-- The model a delivered event belongs to. -/
def Event.modelId : Event → String
  | .chunk m _ => m
  | .complete m _ => m
  | .error m _ => m

/-- Whether an event is a completion event. -/
def Event.isComplete : Event → Bool
  | .complete _ _ => true
  | _ => false

/-- Black-box behaviour of one model invocation of the SDK for the fixed
prompt: either the stream yields all its chunks and the SDK reports token
counts and elapsed time, or the invocation throws after emitting a prefix of
its chunks. -/
inductive ModelBehavior where
  | succeeds (chunks : List String) (inputTokens outputTokens : Nat) (elapsedMs : Nat)
  | fails (chunks : List String) (message : String)
deriving DecidableEq

/-- Embeds `LangChainService.streamResponse`: an unknown model identifier throws
`Model ... not found`, which the surrounding catch reports through `onError`;
otherwise each streamed chunk is forwarded in order through `onChunk` and the
stream ends with exactly one terminal callback — `onComplete` with the metrics
(cost computed by `calculateCost`) on success, `onError` with the thrown
message on failure. -/
def streamResponseEvents (registry : List ModelInfo) (behave : String → ModelBehavior)
    (modelId : String) : List Event :=
  if (registry.find? (fun mi => mi.id = modelId)).isSome then
    match behave modelId with
    | .succeeds cs inTok outTok elapsed =>
        cs.map (Event.chunk modelId)
          ++ [Event.complete modelId ⟨inTok, outTok, calculateCost modelId inTok outTok, elapsed⟩]
    | .fails cs msg => cs.map (Event.chunk modelId) ++ [Event.error modelId msg]
  else
    [Event.error modelId ("Model " ++ modelId ++ " not found")]

/-- Here `streamMultipleResponses` launches one `streamResponse` per requested
model concurrently, and the callbacks of the different models interleave: a
delivered trace is any sequence obtained by repeatedly taking the next
pending event of one of the streams, preserving the order within each
stream. -/
inductive Interleaves {α : Type} : List (List α) → List α → Prop where
  | nil (ls : List (List α)) (h : ∀ l ∈ ls, l = []) : Interleaves ls []
  | cons (ls : List (List α)) (i : Nat) (x : α) (rest : List α) (t : List α)
      (hi : ls[i]? = some (x :: rest)) (ht : Interleaves (ls.set i rest) t) :
      Interleaves ls (x :: t)

/-- Lookup in a JS `Map` built from an association list: a later entry for
the same key overwrites an earlier one, so the last binding wins. -/
def mapGet (pairs : List (String × Nat)) (k : String) : Option Nat :=
  (pairs.reverse.find? (fun p => p.1 = k)).map (fun p => p.2)

/-- Embeds `DatabaseService.createModelResponse`: a fresh row in `pending` status
with the response text initialised to the empty string. -/
def mkRow (sid modelId provider : String) (rid : Nat) : ModelResponse :=
  { id := rid, sessionId := sid, modelId := modelId, provider := provider,
    response := "", status := RespStatus.pending, inputTokens := none,
    outputTokens := none, cost := none, responseTimeMs := none,
    errorMessage := none }

/-- The rows created by phase (b) of `startComparisonStreaming`: one row per
requested model identifier that the registry lookup resolves, with fresh ids
assigned in request order.  An identifier the lookup misses creates no row:
reading `.provider` of `undefined` throws instead — see
`startComparisonStreaming`. -/
def mkRows (registry : List ModelInfo) (sid : String) :
    List String → Nat → List ModelResponse
  | [], _ => []
  | m :: ms, n =>
    match registry.find? (fun mi => mi.id = m) with
    | some mi => mkRow sid m mi.provider n :: mkRows registry sid ms (n + 1)
    | none => mkRows registry sid ms (n + 1)

/-- The `onModelChunk` handler body of `startComparisonStreaming`: append the
chunk to the accumulated text and mark the row `streaming`. -/
def applyChunk (r : ModelResponse) (c : String) : ModelResponse :=
  { r with response := r.response ++ c, status := RespStatus.streaming }

/-- Embeds `DatabaseService.finalizeModelResponse` as invoked by the
`onModelComplete` handler: store the metrics and mark the row `completed`. -/
def applyComplete (r : ModelResponse) (m : Metrics) : ModelResponse :=
  { r with inputTokens := some m.inputTokens, outputTokens := some m.outputTokens,
           cost := some m.cost, responseTimeMs := some m.responseTimeMs,
           status := RespStatus.completed }

/-- Embeds `DatabaseService.markResponseAsError` as invoked by the `onModelError`
handler: mark the row `error` and store the message. -/
def applyError (r : ModelResponse) (msg : String) : ModelResponse :=
  { r with status := RespStatus.error, errorMessage := some msg }

/-- Dispatch of one delivered event through the matching handler body. -/
def applyEventToRow (r : ModelResponse) : Event → ModelResponse
  | .chunk _ c => applyChunk r c
  | .complete _ m => applyComplete r m
  | .error _ msg => applyError r msg

/-- A row update by row id (`responseRepository.update(responseId, ...)`). -/
def updateRow (rows : List ModelResponse) (rid : Nat)
    (f : ModelResponse → ModelResponse) : List ModelResponse :=
  rows.map (fun r => if r.id = rid then f r else r)

/-- One delivered event applied to the response table: the handlers look the
row up through the run's `responseMap`, keyed by model id, and update that
row; an event whose model id is missing from the map is ignored, as the
`if (response)` guard does. -/
def applyEvent (responseMap : List (String × Nat)) (rows : List ModelResponse)
    (e : Event) : List ModelResponse :=
  match mapGet responseMap e.modelId with
  | some rid => updateRow rows rid (fun r => applyEventToRow r e)
  | none => rows

/-- Reference formulation used by the proofs: the event updates every row
whose model id matches.  It agrees with `applyEvent` whenever the map is the
one the run builds and the ids and model ids of the rows are
duplicate-free. -/
def applyEventByModel (rows : List ModelResponse) (e : Event) : List ModelResponse :=
  rows.map (fun r => if r.modelId = e.modelId then applyEventToRow r e else r)

/-- The database state one run touches: the session row and the response
rows of that session. -/
structure RunState where
  session : Session
  rows : List ModelResponse
deriving DecidableEq

/-- Outcome of one `startComparisonStreaming` call: the final state together
with the error the call re-raised, if any. -/
structure RunResult where
  state : RunState
  thrown : Option String
deriving DecidableEq

/-- Embeds `ComparisonService.startComparisonStreaming`.  The
session is first moved to `in_progress`; one response row per requested model
is then created — when some requested identifier is missing from the registry,
the creation phase reads `.provider` of `undefined`, so the whole call throws
a TypeError, which the catch block records by moving the session to `failed`
before re-raising (the rows of the identifiers that did resolve were already
dispatched for creation and remain).  Otherwise the delivered event trace —
the interleaving of the per-model streams produced by
`streamMultipleResponses` — is folded through the chunk/complete/error
handlers, the aggregates are recomputed by `updateSessionMetrics`, and the
session is moved to `completed`. -/
def startComparisonStreaming (registry : List ModelInfo) (s0 : Session)
    (modelIds : List String) (trace : List Event) : RunResult :=
  let s1 := { s0 with status := SessStatus.in_progress }
  if modelIds.all (fun m => (registry.find? (fun mi => mi.id = m)).isSome) then
    let rows := mkRows registry s0.id modelIds 0
    let responseMap := rows.map (fun r => (r.modelId, r.id))
    let rows2 := trace.foldl (applyEvent responseMap) rows
    let s2 := updateSessionMetrics s0.id rows2 s1
    ⟨⟨{ s2 with status := SessStatus.completed }, rows2⟩, none⟩
  else
    ⟨⟨{ s1 with status := SessStatus.failed }, mkRows registry s0.id modelIds 0⟩,
      some "TypeError: Cannot read properties of undefined (reading provider)"⟩

/-! ### Concrete rows used by witnesses and counterexamples -/

/-- A session row as created by `createSession`. -/
def sessionA : Session := ⟨"s1", "hello", SessStatus.pending, 0, 0, 0, "alice"⟩

/-- A finalised (completed) response row. -/
def rowDone : ModelResponse :=
  ⟨0, "s1", "gpt-4", "openai", "hi", RespStatus.completed,
    some 5, some 8, some (2/10000), some 900, none⟩

/-- A response row marked as a provider error. -/
def rowErr : ModelResponse :=
  ⟨1, "s1", "gpt-3.5-turbo", "openai", "", RespStatus.error,
    none, none, none, none, some "rate limit exceeded"⟩

/-- A 103-character prompt that coincides with its own first 100 characters
followed by an ellipsis. -/
def longPrompt : String := String.mk (List.replicate 100 'a') ++ "..."

/-- A one-model registry. -/
def regB : List ModelInfo := [⟨"gpt-4", "openai"⟩]

/-- A two-model registry. -/
def regB2 : List ModelInfo := [⟨"gpt-4", "openai"⟩, ⟨"gpt-3.5-turbo", "openai"⟩]

/-- An empty registry (no provider credentials configured). -/
def regEmpty : List ModelInfo := []

/-- A behaviour in which every invocation streams one chunk and completes. -/
def behaveOk : String → ModelBehavior := fun _ => ModelBehavior.succeeds ["hi"] 1 2 3

/-- A behaviour in which every invocation completes without any chunk. -/
def behaveD : String → ModelBehavior := fun _ => ModelBehavior.succeeds [] 1 1 1

/-- Like `behaveOk` but with the `gpt-3.5-turbo` invocation failing instead. -/
def behave72 : String → ModelBehavior :=
  fun mid =>
    if mid = "gpt-3.5-turbo" then ModelBehavior.fails [] "rate limit exceeded"
    else ModelBehavior.succeeds ["hi"] 1 2 3

/-- A behaviour in which every invocation fails at once. -/
def behaveFail : String → ModelBehavior :=
  fun _ => ModelBehavior.fails [] "rate limit exceeded"

/-- The chunk event of the `behaveOk` stream of `gpt-4`. -/
def chunk4 : Event := Event.chunk "gpt-4" "hi"

/-- The completion event of the `behaveOk` stream of `gpt-4`. -/
def comp4 : Event := Event.complete "gpt-4" ⟨1, 2, calculateCost "gpt-4" 1 2, 3⟩

/-- The chunk event of the `behaveOk` stream of `gpt-3.5-turbo`. -/
def chunk35 : Event := Event.chunk "gpt-3.5-turbo" "hi"

/-- The completion event of the `behaveOk` stream of `gpt-3.5-turbo`. -/
def comp35 : Event := Event.complete "gpt-3.5-turbo" ⟨1, 2, calculateCost "gpt-3.5-turbo" 1 2, 3⟩

/-- The error event of the failing `gpt-3.5-turbo` invocation. -/
def err35 : Event := Event.error "gpt-3.5-turbo" "rate limit exceeded"

/-- The error event of a failing `gpt-4` invocation. -/
def err4 : Event := Event.error "gpt-4" "rate limit exceeded"

/-- The `behaveOk` single-model trace. -/
def traceOk : List Event := [chunk4, comp4]

/-- The `behaveFail` single-model trace. -/
def traceFail : List Event := [err4]

/-- The completion event of the chunkless `behaveD` stream of `gpt-4`. -/
def cEvD : Event := Event.complete "gpt-4" ⟨1, 1, calculateCost "gpt-4" 1 1, 1⟩

/-- A trace of the duplicate request `[gpt-4, gpt-4]` under `behaveD`. -/
def traceD : List Event := [cEvD, cEvD]

/-- A trace of `[gpt-4, gpt-3.5-turbo]` under `behaveOk`: first stream fully,
then the second. -/
def trace71 : List Event := [chunk4, comp4, chunk35, comp35]

/-- A trace of `[gpt-4, gpt-3.5-turbo]` under `behave72`: the failure first,
then the surviving stream. -/
def trace72 : List Event := [err35, chunk4, comp4]

/-- A trace of the duplicate request `[gpt-4, gpt-4, gpt-3.5-turbo]` under
`behaveOk`: the two copies of the `gpt-4` stream run back to back. -/
def trace73 : List Event := [chunk4, comp4, chunk4, comp4, chunk35, comp35]

/-- A trace of the same duplicate request under `behave72`: the two copies of
the `gpt-4` stream interleave chunk-chunk-complete-complete. -/
def trace74 : List Event := [chunk4, chunk4, comp4, comp4, err35]

/-- The completion metrics of the worked scenario. -/
def metW : Metrics := ⟨5, 8, 2/10000, 900⟩

/-- A freshly created pending row. -/
def rowPend : ModelResponse := mkRow "s1" "gpt-4" "openai" 0

/-! ## Theorems -/

/-- Every event of one stream of the fan-out carries that stream's model id. -/
theorem streamResponseEvents_modelId (registry : List ModelInfo)
    (behave : String → ModelBehavior) (m : String) :
    ∀ e ∈ streamResponseEvents registry behave m, e.modelId = m := by
  intro e he
  unfold streamResponseEvents at he
  by_cases hreg : (registry.find? (fun mi => mi.id = m)).isSome
  · rw [if_pos hreg] at he
    cases hb : behave m with
    | succeeds cs a b c =>
      rw [hb] at he
      rcases List.mem_append.mp he with h | h
      · obtain ⟨x, _, rfl⟩ := List.mem_map.mp h
        rfl
      · simp only [List.mem_singleton] at h
        subst h
        rfl
    | fails cs msg =>
      rw [hb] at he
      rcases List.mem_append.mp he with h | h
      · obtain ⟨x, _, rfl⟩ := List.mem_map.mp h
        rfl
      · simp only [List.mem_singleton] at h
        subst h
        rfl
  · rw [if_neg hreg] at he
    simp only [List.mem_singleton] at he
    subst he
    rfl

/-- Every event of an interleaved trace comes from one of the streams. -/
theorem interleaves_mem {α : Type} {ls : List (List α)} {t : List α}
    (h : Interleaves ls t) : ∀ x ∈ t, ∃ l ∈ ls, x ∈ l := by
  induction h with
  | nil ls h =>
    intro x hx
    cases hx
  | cons ls i x rest t hi ht ih =>
    intro y hy
    have hmem : (x :: rest) ∈ ls := List.getElem?_mem hi
    rcases List.mem_cons.mp hy with hxy | hy
    · exact ⟨x :: rest, hmem, by rw [hxy]; exact List.mem_cons_self x rest⟩
    · obtain ⟨l, hl, hyl⟩ := ih y hy
      rcases List.mem_or_eq_of_mem_set hl with hls | heq
      · exact ⟨l, hls, hyl⟩
      · rw [heq] at hyl
        exact ⟨x :: rest, hmem, List.mem_cons_of_mem x hyl⟩

/-- Filtering an interleaved trace by the key of one stream recovers exactly
that stream, provided the streams carry pairwise distinct keys. -/
theorem interleaves_filter {α : Type} (key : α → String) {ls : List (List α)}
    {t : List α} (hI : Interleaves ls t) :
    ∀ (keys : List String), keys.Nodup → ls.length = keys.length →
      (∀ (i : Nat) (l : List α) (k : String),
        ls[i]? = some l → keys[i]? = some k → ∀ x ∈ l, key x = k) →
      ∀ (j : Nat) (l : List α) (k : String), ls[j]? = some l → keys[j]? = some k →
        t.filter (fun x => key x = k) = l := by
  induction hI with
  | nil ls h =>
    intro keys _ _ _ j l k hjl _
    have : l = [] := h l (List.getElem?_mem hjl)
    simp [this]
  | cons ls i0 x rest t hi ht ih =>
    intro keys hnd hlen hkey j l k hjl hjk
    have hi0lt : i0 < ls.length := (List.getElem?_eq_some.mp hi).1
    have hi0ltk : i0 < keys.length := hlen ▸ hi0lt
    obtain ⟨k0, hk0⟩ : ∃ k0, keys[i0]? = some k0 := by
      cases hval : keys[i0]? with
      | none =>
        exact absurd (List.getElem?_eq_none_iff.mp hval) (Nat.not_le.mpr hi0ltk)
      | some k0 => exact ⟨k0, rfl⟩
    have hxkey : key x = k0 :=
      hkey i0 (x :: rest) k0 hi hk0 x (List.mem_cons_self x rest)
    have hset : (ls.set i0 rest)[i0]? = some rest :=
      List.getElem?_set_eq_of_lt rest hi0lt
    have hlen' : (ls.set i0 rest).length = keys.length := by
      simpa using hlen
    have hkey' : ∀ (i : Nat) (l : List α) (k : String),
        (ls.set i0 rest)[i]? = some l → keys[i]? = some k →
        ∀ y ∈ l, key y = k := by
      intro i l k hil hik y hy
      by_cases hii : i = i0
      · subst hii
        rw [hset] at hil
        injection hil with hil
        subst hil
        exact hkey i (x :: rest) k hi hik y (List.mem_cons_of_mem x hy)
      · have hr : (ls.set i0 rest)[i]? = ls[i]? :=
          List.getElem?_set_ne (fun h => hii h.symm)
        rw [hr] at hil
        exact hkey i l k hil hik y hy
    by_cases hji : j = i0
    · subst hji
      have hkk0 : k = k0 := by
        rw [hjk] at hk0
        exact Option.some.inj hk0
      subst hkk0
      rw [hi] at hjl
      injection hjl with hjl
      subst hjl
      rw [List.filter_cons, if_pos (by simpa using hxkey)]
      have := ih keys hnd hlen' hkey' j rest k hset hjk
      rw [this]
    · have hkk0 : k ≠ k0 := by
        intro hkk
        subst hkk
        obtain ⟨hj1, hj2⟩ := List.getElem?_eq_some.mp hjk
        obtain ⟨hi1, hi2⟩ := List.getElem?_eq_some.mp hk0
        exact hji ((List.Nodup.getElem_inj_iff hnd).mp (hj2.trans hi2.symm))
      have hxne : ¬ (key x = k) := by
        rw [hxkey]
        exact fun h => hkk0 h.symm
      have hr : (ls.set i0 rest)[j]? = ls[j]? :=
        List.getElem?_set_ne (fun h => hji h.symm)
      rw [List.filter_cons, if_neg (by simpa using hxne)]
      exact ih keys hnd hlen' hkey' j l k (hr.trans hjl) hjk

/-- For a duplicate-free request, filtering a delivered trace by one of the
requested model ids recovers exactly that model's stream. -/
theorem trace_filter_eq (registry : List ModelInfo) (behave : String → ModelBehavior)
    {modelIds : List String} {t : List Event} (hnd : modelIds.Nodup)
    (hI : Interleaves (modelIds.map (streamResponseEvents registry behave)) t) :
    ∀ m ∈ modelIds,
      t.filter (fun e => e.modelId = m) = streamResponseEvents registry behave m := by
  intro m hm
  obtain ⟨j, hj⟩ := List.mem_iff_getElem?.mp hm
  have hlj : (modelIds.map (streamResponseEvents registry behave))[j]?
      = some (streamResponseEvents registry behave m) := by
    rw [List.getElem?_map, hj]
    rfl
  refine interleaves_filter Event.modelId hI modelIds hnd (by simp) ?_ j _ m hlj hj
  intro i l k hil hik x hx
  rw [List.getElem?_map, hik] at hil
  injection hil with hil
  subst hil
  exact streamResponseEvents_modelId registry behave k x hx

/-- The rows created for a fully-resolvable request carry exactly the
requested model ids, in order. -/
theorem mkRows_map_modelId (registry : List ModelInfo) (sid : String) :
    ∀ (ms : List String) (n : Nat),
      (∀ m ∈ ms, (registry.find? (fun mi => mi.id = m)).isSome) →
      (mkRows registry sid ms n).map (fun r => r.modelId) = ms := by
  intro ms
  induction ms with
  | nil => intro n _; rfl
  | cons m ms ih =>
    intro n hfound
    obtain ⟨mi, hmi⟩ := Option.isSome_iff_exists.mp (hfound m (List.mem_cons_self m ms))
    simp only [mkRows]
    rw [hmi]
    simp only [List.map_cons]
    rw [ih (n + 1) (fun m' hm' => hfound m' (List.mem_cons_of_mem m hm'))]
    rfl

/-- The rows created for a fully-resolvable request carry consecutive fresh
ids starting at the given counter. -/
theorem mkRows_map_id (registry : List ModelInfo) (sid : String) :
    ∀ (ms : List String) (n : Nat),
      (∀ m ∈ ms, (registry.find? (fun mi => mi.id = m)).isSome) →
      (mkRows registry sid ms n).map (fun r => r.id) = List.range' n ms.length := by
  intro ms
  induction ms with
  | nil => intro n _; rfl
  | cons m ms ih =>
    intro n hfound
    obtain ⟨mi, hmi⟩ := Option.isSome_iff_exists.mp (hfound m (List.mem_cons_self m ms))
    simp only [mkRows]
    rw [hmi]
    simp only [List.map_cons, List.length_cons]
    rw [ih (n + 1) (fun m' hm' => hfound m' (List.mem_cons_of_mem m hm'))]
    rfl

/-- Every created row starts with empty text, `pending` status, and the
session id of the run. -/
theorem mkRows_fields (registry : List ModelInfo) (sid : String) :
    ∀ (ms : List String) (n : Nat), ∀ r ∈ mkRows registry sid ms n,
      r.response = "" ∧ r.status = RespStatus.pending ∧ r.sessionId = sid := by
  intro ms
  induction ms with
  | nil => intro n r hr; cases hr
  | cons m ms ih =>
    intro n r hr
    simp only [mkRows] at hr
    cases hmi : registry.find? (fun mi => mi.id = m) with
    | some mi =>
      rw [hmi] at hr
      rcases List.mem_cons.mp hr with heq | hmem
      · subst heq
        exact ⟨rfl, rfl, rfl⟩
      · exact ih (n + 1) r hmem
    | none =>
      rw [hmi] at hr
      exact ih (n + 1) r hr

/-- A key is absent from the JS map exactly when no entry carries it. -/
theorem mapGet_eq_none (pairs : List (String × Nat)) (k : String) :
    mapGet pairs k = none ↔ ∀ p ∈ pairs, p.1 ≠ k := by
  unfold mapGet
  rw [Option.map_eq_none']
  rw [List.find?_eq_none]
  constructor
  · intro h p hp
    have := h p (List.mem_reverse.mpr hp)
    simpa using this
  · intro h p hp
    have := h p (List.mem_reverse.mp hp)
    simpa using this

/-- A successful JS map lookup returns one of the stored bindings. -/
theorem mapGet_some_mem (pairs : List (String × Nat)) (k : String) (v : Nat)
    (h : mapGet pairs k = some v) : (k, v) ∈ pairs := by
  unfold mapGet at h
  obtain ⟨p, hp, hpv⟩ := Option.map_eq_some'.mp h
  have hmem : p ∈ pairs := List.mem_reverse.mp (List.mem_of_find?_eq_some hp)
  have hkey := List.find?_some hp
  simp only [decide_eq_true_eq] at hkey
  have : p = (k, v) := by
    cases p
    simp only [Prod.mk.injEq]
    exact ⟨hkey, hpv⟩
  rw [← this]
  exact hmem

/-- The handlers never change a row's id. -/
theorem applyEventToRow_id (r : ModelResponse) (e : Event) :
    (applyEventToRow r e).id = r.id := by
  cases e <;> rfl

/-- The handlers never change a row's model id. -/
theorem applyEventToRow_modelId (r : ModelResponse) (e : Event) :
    (applyEventToRow r e).modelId = r.modelId := by
  cases e <;> rfl

/-- The handlers never change a row's session id. -/
theorem applyEventToRow_sessionId (r : ModelResponse) (e : Event) :
    (applyEventToRow r e).sessionId = r.sessionId := by
  cases e <;> rfl

/-- A fold of handler applications never changes a row's model id. -/
theorem foldl_applyEventToRow_modelId :
    ∀ (es : List Event) (r : ModelResponse),
      (es.foldl applyEventToRow r).modelId = r.modelId := by
  intro es
  induction es with
  | nil => intro r; rfl
  | cons e es ih =>
    intro r
    simp only [List.foldl_cons]
    rw [ih, applyEventToRow_modelId]

/-- When the response map is the one built from the rows and both the ids and
the model ids of the rows are duplicate-free, the id-keyed update of
`applyEvent` coincides with updating the row of the event's model. -/
theorem applyEvent_eq_byModel (rmap : List (String × Nat)) (rows : List ModelResponse)
    (e : Event) (hrm : rows.map (fun r => (r.modelId, r.id)) = rmap)
    (hid : (rows.map (fun r => r.id)).Nodup)
    (hmid : (rows.map (fun r => r.modelId)).Nodup) :
    applyEvent rmap rows e = applyEventByModel rows e := by
  unfold applyEvent applyEventByModel
  cases hget : mapGet rmap e.modelId with
  | none =>
    have hno : ∀ r ∈ rows, ¬ (r.modelId = e.modelId) := by
      intro r hr hcontra
      have hmem : (r.modelId, r.id) ∈ rmap := by
        rw [← hrm]
        exact List.mem_map_of_mem _ hr
      exact (mapGet_eq_none rmap e.modelId).mp hget (r.modelId, r.id) hmem hcontra
    have hcongr : ∀ r ∈ rows,
        (if r.modelId = e.modelId then applyEventToRow r e else r) = r := by
      intro r hr
      rw [if_neg (hno r hr)]
    calc rows = rows.map (fun r => r) := (List.map_id' rows).symm
      _ = rows.map (fun r => if r.modelId = e.modelId then applyEventToRow r e else r) :=
        (List.map_congr_left hcongr).symm
  | some rid =>
    have hmem : (e.modelId, rid) ∈ rows.map (fun r => (r.modelId, r.id)) := by
      rw [hrm]
      exact mapGet_some_mem rmap e.modelId rid hget
    obtain ⟨rstar, hrstar, heq⟩ := List.mem_map.mp hmem
    have hsm : rstar.modelId = e.modelId := congrArg Prod.fst heq
    have hsi : rstar.id = rid := congrArg Prod.snd heq
    unfold updateRow
    apply List.map_congr_left
    intro r hr
    by_cases hcase : r.id = rid
    · have hrr : r = rstar :=
        List.inj_on_of_nodup_map hid hr hrstar (by rw [hcase, hsi])
      rw [if_pos hcase, if_pos (by rw [hrr, hsm])]
    · have hne : ¬ (r.modelId = e.modelId) := by
        intro hcontra
        have hrr : r = rstar :=
          List.inj_on_of_nodup_map hmid hr hrstar (by rw [hcontra, hsm])
        exact hcase (by rw [hrr, hsi])
      rw [if_neg hcase, if_neg hne]

/-- One by-model update leaves the (model id, id) signature of the rows
unchanged. -/
theorem applyEventByModel_pairs (rows : List ModelResponse) (e : Event) :
    (applyEventByModel rows e).map (fun r => (r.modelId, r.id))
      = rows.map (fun r => (r.modelId, r.id)) := by
  unfold applyEventByModel
  rw [List.map_map]
  apply List.map_congr_left
  intro r _
  by_cases h : r.modelId = e.modelId
  · simp [Function.comp_def, h, applyEventToRow_id, applyEventToRow_modelId]
  · simp [Function.comp_def, h]

/-- Under the duplicate-freeness conditions, folding the delivered trace
through the id-keyed handlers is the same as folding it through by-model
updates. -/
theorem foldl_applyEvent_eq (rmap : List (String × Nat)) :
    ∀ (t : List Event) (rows : List ModelResponse),
      rows.map (fun r => (r.modelId, r.id)) = rmap →
      (rows.map (fun r => r.id)).Nodup →
      (rows.map (fun r => r.modelId)).Nodup →
      t.foldl (applyEvent rmap) rows = t.foldl applyEventByModel rows := by
  intro t
  induction t with
  | nil => intro rows _ _ _; rfl
  | cons e t ih =>
    intro rows hrm hid hmid
    simp only [List.foldl_cons]
    rw [applyEvent_eq_byModel rmap rows e hrm hid hmid]
    have hpairs := applyEventByModel_pairs rows e
    have hid' : ((applyEventByModel rows e).map (fun r => r.id)).Nodup := by
      have h2 := congrArg (List.map Prod.snd) hpairs
      simp only [List.map_map, Function.comp_def] at h2
      rw [h2]
      exact hid
    have hmid' : ((applyEventByModel rows e).map (fun r => r.modelId)).Nodup := by
      have h2 := congrArg (List.map Prod.fst) hpairs
      simp only [List.map_map, Function.comp_def] at h2
      rw [h2]
      exact hmid
    exact ih (applyEventByModel rows e) (hpairs.trans hrm) hid' hmid'

/-- Folding a trace through by-model updates works on each row independently:
each row ends as the fold, over the events of its own model, of the handler
applications. -/
theorem foldl_byModel_eq_map :
    ∀ (t : List Event) (rows : List ModelResponse),
      t.foldl applyEventByModel rows
        = rows.map (fun r =>
            (t.filter (fun e => e.modelId = r.modelId)).foldl applyEventToRow r) := by
  intro t
  induction t with
  | nil =>
    intro rows
    simp
  | cons e t ih =>
    intro rows
    simp only [List.foldl_cons]
    rw [ih]
    unfold applyEventByModel
    rw [List.map_map]
    apply List.map_congr_left
    intro r _
    simp only [Function.comp_def]
    by_cases h : r.modelId = e.modelId
    · rw [if_pos h, applyEventToRow_modelId]
      rw [List.filter_cons, if_pos (by simpa using h.symm)]
      rfl
    · rw [if_neg h]
      rw [List.filter_cons, if_neg (by simpa using fun hh => h hh.symm)]

/-- The fold of one full per-model stream always leaves the row in a terminal
status: `completed` when the stream completed, `error` otherwise. -/
theorem foldl_stream_status (registry : List ModelInfo)
    (behave : String → ModelBehavior) (m : String) (r0 : ModelResponse) :
    ((streamResponseEvents registry behave m).foldl applyEventToRow r0).status
        = RespStatus.completed
    ∨ ((streamResponseEvents registry behave m).foldl applyEventToRow r0).status
        = RespStatus.error := by
  unfold streamResponseEvents
  by_cases hreg : (registry.find? (fun mi => mi.id = m)).isSome
  · rw [if_pos hreg]
    cases hb : behave m with
    | succeeds cs a b c =>
      left
      rw [List.foldl_append]
      rfl
    | fails cs msg =>
      right
      rw [List.foldl_append]
      rfl
  · rw [if_neg hreg]
    right
    rfl

/-- Folding the chunk events of a stream appends the concatenation of the
chunks to the accumulated text. -/
theorem foldl_chunks_response (m : String) :
    ∀ (cs : List String) (r : ModelResponse),
      ((cs.map (Event.chunk m)).foldl applyEventToRow r).response
        = r.response ++ cs.foldr (fun a b => a ++ b) "" := by
  intro cs
  induction cs with
  | nil =>
    intro r
    exact (String.append_empty r.response).symm
  | cons c cs ih =>
    intro r
    simp only [List.map_cons, List.foldl_cons, List.foldr_cons]
    rw [ih]
    show (applyChunk r c).response ++ _ = _
    have : (applyChunk r c).response = r.response ++ c := rfl
    rw [this, String.append_assoc]

/-- In a list of rows with duplicate-free model ids, filtering by one of the
present model ids yields exactly one row. -/
theorem filter_modelId_singleton :
    ∀ (l : List ModelResponse) (m : String),
      (l.map (fun r => r.modelId)).Nodup → m ∈ l.map (fun r => r.modelId) →
      ∃ r, l.filter (fun x => x.modelId = m) = [r] ∧ r ∈ l ∧ r.modelId = m := by
  intro l
  induction l with
  | nil => intro m _ hm; cases hm
  | cons r0 l ih =>
    intro m hnd hm
    simp only [List.map_cons, List.nodup_cons] at hnd
    obtain ⟨hnotin, hnd'⟩ := hnd
    rcases List.mem_cons.mp hm with heq | hmem
    · refine ⟨r0, ?_, List.mem_cons_self r0 l, heq.symm⟩
      rw [List.filter_cons, if_pos (by simpa using heq.symm)]
      have hnil : l.filter (fun x => x.modelId = m) = [] := by
        rw [List.filter_eq_nil_iff]
        intro r hr
        simp only [decide_eq_true_eq]
        intro hcontra
        have heq2 : m = r0.modelId := heq
        exact hnotin (by rw [← heq2, ← hcontra]; exact List.mem_map_of_mem _ hr)
      rw [hnil]
    · obtain ⟨r, hfl, hrl, hrm⟩ := ih m hnd' hmem
      refine ⟨r, ?_, List.mem_cons_of_mem r0 hrl, hrm⟩
      rw [List.filter_cons, if_neg (by
        simp only [decide_eq_true_eq]
        intro hcontra
        exact hnotin (hcontra ▸ hmem))]
      exact hfl

/-- Folding an accumulating addition is summing the mapped list. -/
theorem foldl_add_eq_sum {α β : Type} [AddCommMonoid β] (f : α → β) :
    ∀ (l : List α) (b : β), l.foldl (fun acc x => acc + f x) b = b + (l.map f).sum := by
  intro l
  induction l with
  | nil => intro b; simp
  | cons x xs ih => intro b; simp [ih, add_assoc]

/-- The token fold of `updateSessionMetrics` is the sum of the mapped totals. -/
theorem foldl_tokens_eq_sum :
    ∀ (l : List ModelResponse) (b : ℕ),
      l.foldl (fun acc r => acc + r.inputTokens.getD 0 + r.outputTokens.getD 0) b
        = b + (l.map (fun r => r.inputTokens.getD 0 + r.outputTokens.getD 0)).sum := by
  intro l
  induction l with
  | nil => intro b; simp
  | cons x xs ih =>
    intro b
    simp only [List.foldl_cons, List.map_cons, List.sum_cons, ih]
    omega

/-- C8 (amended): for every non-empty input text, the fallback token estimator
returns the larger of (word count × 1.3, rounded up) and (character count ÷ 3.5,
rounded up), and its result is at least 1; the empty text instead returns 0
(see the counterexample `estimateTokens_empty_not_pos`). -/
theorem estimateTokens_formula (text : String) (h : text.length ≠ 0) :
    estimateTokens text
      = max (Nat.ceil ((wordCount text : ℚ) * 13 / 10))
          (Nat.ceil ((text.length : ℚ) * 2 / 7))
    ∧ 1 ≤ estimateTokens text := by
  have hlen : 0 < text.length := Nat.pos_of_ne_zero h
  have hq : (0 : ℚ) < (text.length : ℚ) * 2 / 7 := by positivity
  have hdiv : ((text.length : ℚ) / (35 / 10)) = (text.length : ℚ) * 2 / 7 := by ring
  have hone : 1 ≤ Nat.ceil ((text.length : ℚ) * 2 / 7) := Nat.one_le_ceil_iff.mpr hq
  have hmax : 1 ≤ max (Nat.ceil ((wordCount text : ℚ) * 13 / 10))
      (Nat.ceil ((text.length : ℚ) * 2 / 7)) := le_trans hone (le_max_right _ _)
  have heq : estimateTokens text
      = max (Nat.ceil ((wordCount text : ℚ) * 13 / 10))
          (Nat.ceil ((text.length : ℚ) * 2 / 7)) := by
    unfold estimateTokens
    rw [if_neg h]
    simp only [hdiv]
    exact max_eq_left hmax
  exact ⟨heq, heq ▸ hmax⟩

/-- C8 witness: the formula theorem applied at a concrete non-empty text. -/
theorem estimateTokens_formula_witness :
    ("hello world".length ≠ 0)
    ∧ (estimateTokens "hello world"
        = max (Nat.ceil ((wordCount "hello world" : ℚ) * 13 / 10))
            (Nat.ceil (("hello world".length : ℚ) * 2 / 7))
      ∧ 1 ≤ estimateTokens "hello world") :=
  ⟨by decide, estimateTokens_formula "hello world" (by decide)⟩

/-- C8 counterexample: on the empty text the estimator returns 0, refuting
the claim that its result is at least 1 for every input. -/
theorem estimateTokens_empty_not_pos :
    estimateTokens "" = 0 ∧ ¬ (1 ≤ estimateTokens "") := by
  constructor
  · rfl
  · decide

/-- C2: after recomputation, the session aggregates are exactly the sums over
the completed responses of the session — total tokens the sum of input plus
output tokens, total cost the sum of costs — the average response time is the
arithmetic mean of their response times (0 when none completed), and a
response in error status contributes nothing to any aggregate. -/
theorem updateSessionMetrics_aggregates (sid : String) (table : List ModelResponse)
    (s : Session) :
    ((updateSessionMetrics sid table s).totalTokens
        = ((table.filter (fun r => r.sessionId = sid ∧ r.status = RespStatus.completed)).map
            (fun r => r.inputTokens.getD 0 + r.outputTokens.getD 0)).sum)
    ∧ ((updateSessionMetrics sid table s).totalCost
        = ((table.filter (fun r => r.sessionId = sid ∧ r.status = RespStatus.completed)).map
            (fun r => r.cost.getD 0)).sum)
    ∧ (table.filter (fun r => r.sessionId = sid ∧ r.status = RespStatus.completed) = [] →
        (updateSessionMetrics sid table s).averageResponseTime = 0)
    ∧ (table.filter (fun r => r.sessionId = sid ∧ r.status = RespStatus.completed) ≠ [] →
        (updateSessionMetrics sid table s).averageResponseTime
          = ((table.filter (fun r => r.sessionId = sid ∧ r.status = RespStatus.completed)).map
              (fun r => (r.responseTimeMs.getD 0 : ℚ))).sum
            / ((table.filter (fun r => r.sessionId = sid ∧ r.status = RespStatus.completed)).length : ℚ))
    ∧ (∀ r, r.status = RespStatus.error →
        updateSessionMetrics sid (r :: table) s = updateSessionMetrics sid table s) := by
  refine ⟨?_, ?_, ?_, ?_, ?_⟩
  · simp only [updateSessionMetrics]
    rw [foldl_tokens_eq_sum]
    exact zero_add _
  · simp only [updateSessionMetrics]
    rw [foldl_add_eq_sum]
    exact zero_add _
  · intro hnil
    simp only [updateSessionMetrics]
    rw [hnil]
    simp
  · intro hne
    have hlen : 0 < (table.filter
        (fun r => r.sessionId = sid ∧ r.status = RespStatus.completed)).length :=
      List.length_pos.mpr hne
    simp only [updateSessionMetrics]
    rw [if_pos hlen, foldl_add_eq_sum, zero_add]
    push_cast
    rw [List.map_map]
    simp [Function.comp_def]
  · intro r hr
    have hfilter : (r :: table).filter
          (fun x => x.sessionId = sid ∧ x.status = RespStatus.completed)
        = table.filter (fun x => x.sessionId = sid ∧ x.status = RespStatus.completed) := by
      rw [List.filter_cons]
      simp [hr]
    unfold updateSessionMetrics
    rw [hfilter]

/-- C2 witness: the aggregate theorem applied at a one-completed-row table,
together with its error-row-invariance clause applied at a concrete error
row. -/
theorem updateSessionMetrics_aggregates_witness :
    ([rowDone].filter (fun r => r.sessionId = "s1" ∧ r.status = RespStatus.completed) ≠ [])
    ∧ (updateSessionMetrics "s1" [rowDone] sessionA).averageResponseTime
        = (([rowDone].filter (fun r => r.sessionId = "s1" ∧ r.status = RespStatus.completed)).map
            (fun r => (r.responseTimeMs.getD 0 : ℚ))).sum
          / (([rowDone].filter (fun r => r.sessionId = "s1" ∧ r.status = RespStatus.completed)).length : ℚ)
    ∧ updateSessionMetrics "s1" (rowErr :: [rowDone]) sessionA
        = updateSessionMetrics "s1" [rowDone] sessionA :=
  ⟨by decide,
   (updateSessionMetrics_aggregates "s1" [rowDone] sessionA).2.2.2.1 (by decide),
   (updateSessionMetrics_aggregates "s1" [rowDone] sessionA).2.2.2.2 rowErr (by rfl)⟩

/-- C9: the comparison lookup is scoped by both session id and user id — when
no session with the requested id is owned by the requesting user the call
throws `Session ... not found`, and any session it does return has that id and
is owned by that user (a session of a different user is never returned). -/
theorem getComparison_user_scoped (table : List Session) (sid uid : String) :
    ((∀ s ∈ table, s.id = sid → s.userId ≠ uid) →
        getComparison table sid uid = Except.error ("Session " ++ sid ++ " not found"))
    ∧ (∀ s, getComparison table sid uid = Except.ok s → s.id = sid ∧ s.userId = uid) := by
  constructor
  · intro hnone
    have hfind : getSession table sid uid = none := by
      apply List.find?_eq_none.mpr
      intro s hs
      simp only [decide_eq_true_eq, not_and]
      intro h1
      exact hnone s hs h1
    unfold getComparison
    rw [hfind]
  · intro s hok
    unfold getComparison at hok
    cases hfind : getSession table sid uid with
    | none => rw [hfind] at hok; cases hok
    | some s' =>
      rw [hfind] at hok
      cases hok
      have := List.find?_some hfind
      simpa [decide_eq_true_eq] using this

/-- C9 witness: looking the session of one user up as another user throws. -/
theorem getComparison_user_scoped_witness :
    getComparison [sessionA] "s1" "bob" = Except.error ("Session " ++ "s1" ++ " not found") :=
  (getComparison_user_scoped [sessionA] "s1" "bob").1 (by decide)

/-- C10 (amended): every history entry carries the full prompt when it is at
most 100 characters long, and otherwise its first 100 characters followed by
an ellipsis; hence a longer prompt is returned in full only in the degenerate
case in which it coincides with its own first 100 characters followed by the
ellipsis (see `historyPrompt_degenerate`). -/
theorem getComparisonHistory_prompt (sessions : List Session) :
    (getComparisonHistory sessions).map (fun item => item.prompt)
      = sessions.map (fun s =>
          if s.prompt.length ≤ 100 then s.prompt
          else String.mk (s.prompt.data.take 100) ++ "...") := by
  unfold getComparisonHistory
  rw [List.map_map]
  apply List.map_congr_left
  intro s _
  show historyPrompt s.prompt = _
  unfold historyPrompt
  by_cases hle : s.prompt.length ≤ 100
  · rw [if_neg (not_lt.mpr hle), if_pos hle]
    have htake : s.prompt.data.take 100 = s.prompt.data :=
      List.take_of_length_le hle
    rw [htake]
    exact String.append_empty s.prompt
  · rw [if_pos (not_le.mp hle), if_neg hle]

/-- C10 counterexample: for the 103-character prompt consisting of 100 `a`s
followed by `...` the history listing returns the full prompt text verbatim,
refuting the clause that the full text of a prompt longer than 100 characters
is never returned. -/
theorem historyPrompt_degenerate :
    100 < longPrompt.length ∧ historyPrompt longPrompt = longPrompt := by
  constructor
  · decide
  · decide

/-- A singleton family interleaves only into its single stream. -/
theorem interleaves_singleton {α : Type} : ∀ (l : List α), Interleaves [l] l := by
  intro l
  induction l with
  | nil =>
    refine Interleaves.nil _ ?_
    intro x hx
    exact List.mem_singleton.mp hx
  | cons x xs ih => exact Interleaves.cons _ 0 x xs xs (by simp) ih

/-- An exhausted stream may be dropped from the front of the family. -/
theorem interleaves_cons_nil {α : Type} {ls : List (List α)} {t : List α}
    (h : Interleaves ls t) : Interleaves ([] :: ls) t := by
  induction h with
  | nil ls h =>
    refine Interleaves.nil _ ?_
    intro l hl
    rcases List.mem_cons.mp hl with heq | hm
    · exact heq
    · exact h l hm
  | cons ls i x rest t hi ht ih =>
    exact Interleaves.cons _ (i + 1) x rest t (by simpa using hi) ih

/-- Running the first stream to completion before the rest interleave is one
valid interleaving. -/
theorem interleaves_append {α : Type} (l1 : List α) (ls : List (List α)) (t : List α)
    (h : Interleaves ls t) : Interleaves (l1 :: ls) (l1 ++ t) := by
  induction l1 with
  | nil => exact interleaves_cons_nil h
  | cons x xs ih => exact Interleaves.cons _ 0 x xs (xs ++ t) (by simp) ih

/-- A trace without completion events leaves no row in `completed` status. -/
theorem foldl_no_complete (rmap : List (String × Nat)) :
    ∀ (t : List Event), (∀ e ∈ t, e.isComplete = false) →
    ∀ (rows : List ModelResponse), (∀ r ∈ rows, r.status ≠ RespStatus.completed) →
    ∀ r ∈ t.foldl (applyEvent rmap) rows, r.status ≠ RespStatus.completed := by
  intro t
  induction t with
  | nil =>
    intro _ rows h r hr
    exact h r hr
  | cons e t ih =>
    intro hnc rows hrows
    simp only [List.foldl_cons]
    apply ih (fun e' he' => hnc e' (List.mem_cons_of_mem e he'))
    intro r hr
    unfold applyEvent at hr
    cases hget : mapGet rmap e.modelId with
    | none =>
      rw [hget] at hr
      exact hrows r hr
    | some rid =>
      rw [hget] at hr
      unfold updateRow at hr
      obtain ⟨r0, hr0, rfl⟩ := List.mem_map.mp hr
      by_cases hcase : r0.id = rid
      · rw [if_pos hcase]
        cases e with
        | chunk m c => simp [applyEventToRow, applyChunk]
        | complete m met =>
          exact absurd (hnc (Event.complete m met) (List.mem_cons_self _ _))
            (by simp [Event.isComplete])
        | error m msg => simp [applyEventToRow, applyError]
      · rw [if_neg hcase]
        exact hrows r0 hr0

/-- When no row of the table completed, the recomputed aggregates are all
zero. -/
theorem updateSessionMetrics_no_completed (sid : String) (table : List ModelResponse)
    (s : Session) (h : ∀ r ∈ table, r.status ≠ RespStatus.completed) :
    (updateSessionMetrics sid table s).totalTokens = 0
    ∧ (updateSessionMetrics sid table s).totalCost = 0
    ∧ (updateSessionMetrics sid table s).averageResponseTime = 0 := by
  have hfilter : table.filter
      (fun r => r.sessionId = sid ∧ r.status = RespStatus.completed) = [] := by
    rw [List.filter_eq_nil_iff]
    intro r hr
    simp only [decide_eq_true_eq]
    rintro ⟨-, hst⟩
    exact h r hr hst
  simp only [updateSessionMetrics]
  rw [hfilter]
  exact ⟨rfl, rfl, rfl⟩

/-- C6: whenever `startComparisonStreaming` re-raises, the session has been
moved to `failed`, the re-raised error is exactly the exception the
record-creation phase threw, and the trigger was a requested identifier
missing from the registry. -/
theorem startComparison_throw_failed (registry : List ModelInfo) (s0 : Session)
    (modelIds : List String) (trace : List Event) (err : String)
    (hthrow : (startComparisonStreaming registry s0 modelIds trace).thrown = some err) :
    (startComparisonStreaming registry s0 modelIds trace).state.session.status
        = SessStatus.failed
    ∧ err = "TypeError: Cannot read properties of undefined (reading provider)"
    ∧ ∃ m ∈ modelIds, registry.find? (fun mi => mi.id = m) = none := by
  by_cases hall : modelIds.all
      (fun m => (registry.find? (fun mi => mi.id = m)).isSome) = true
  · unfold startComparisonStreaming at hthrow
    rw [if_pos hall] at hthrow
    simp at hthrow
  · have hex : ∃ m ∈ modelIds, registry.find? (fun mi => mi.id = m) = none := by
      simp only [List.all_eq_true, not_forall] at hall
      obtain ⟨m, hm, hnot⟩ := hall
      refine ⟨m, hm, ?_⟩
      cases hfind : registry.find? (fun mi => mi.id = m) with
      | none => rfl
      | some mi => exact absurd (by rw [hfind]; rfl) hnot
    unfold startComparisonStreaming at hthrow ⊢
    rw [if_neg hall] at hthrow ⊢
    refine ⟨rfl, ?_, hex⟩
    exact (Option.some.inj hthrow).symm

/-- C6 witness: the general theorem applied at an empty registry, where the
single requested identifier cannot resolve. -/
theorem startComparison_throw_failed_witness :
    ((startComparisonStreaming regEmpty sessionA ["gpt-4"] []).thrown
        = some "TypeError: Cannot read properties of undefined (reading provider)")
    ∧ ((startComparisonStreaming regEmpty sessionA ["gpt-4"] []).state.session.status
          = SessStatus.failed
      ∧ "TypeError: Cannot read properties of undefined (reading provider)"
          = "TypeError: Cannot read properties of undefined (reading provider)"
      ∧ ∃ m ∈ ["gpt-4"], regEmpty.find? (fun mi => mi.id = m) = none) :=
  ⟨rfl, startComparison_throw_failed regEmpty sessionA ["gpt-4"] [] _ rfl⟩

/-- C3: evaluating the code at a request holding one known and one unknown
model identifier: the record-creation phase of `startComparisonStreaming`
reads `.provider` of `undefined`, so the whole call throws a TypeError and the
session is marked `failed` — the unknown identifier is not turned into a
per-model error and the known model never streams — although the streaming
layer itself would have reported exactly the per-model `Model ... not found`
error the spec prescribes (third conjunct). -/
theorem startComparison_unknown_model_bug :
    ((startComparisonStreaming regB sessionA ["gpt-4", "no-such-model"] []).thrown
        = some "TypeError: Cannot read properties of undefined (reading provider)")
    ∧ (startComparisonStreaming regB sessionA ["gpt-4", "no-such-model"] []).state.session.status
        = SessStatus.failed
    ∧ streamResponseEvents regB behaveOk "no-such-model"
        = [Event.error "no-such-model" ("Model " ++ "no-such-model" ++ " not found")] := by
  refine ⟨rfl, rfl, rfl⟩

/-- C7 (amended): over a duplicate-free requested model list, two fan-out runs
whose behaviours agree on every requested model other than one — which may
fail in one run and succeed in the other — deliver identical chunk, complete
and error events, in identical order, for every other requested model.  (With
a duplicate identifier the delivery order is not determined — see
`stream_isolation_dup_cex`.) -/
theorem stream_isolation (registry : List ModelInfo) (b1 b2 : String → ModelBehavior)
    (m0 : String) (modelIds : List String) (t1 t2 : List Event)
    (hnd : modelIds.Nodup)
    (hdiff : ∀ m ∈ modelIds, m ≠ m0 → b1 m = b2 m)
    (hI1 : Interleaves (modelIds.map (streamResponseEvents registry b1)) t1)
    (hI2 : Interleaves (modelIds.map (streamResponseEvents registry b2)) t2) :
    ∀ m ∈ modelIds, m ≠ m0 →
      t1.filter (fun e => e.modelId = m) = t2.filter (fun e => e.modelId = m) := by
  intro m hm hne
  rw [trace_filter_eq registry b1 hnd hI1 m hm,
    trace_filter_eq registry b2 hnd hI2 m hm]
  unfold streamResponseEvents
  rw [hdiff m hm hne]

/-- C1 (amended): for every duplicate-free requested model list, when
`startComparisonStreaming` resolves without throwing over a delivered trace of
the fan-out, every requested identifier has exactly one response row, and that
row is in `completed` or `error` status; no row of the session remains
`pending` or `streaming`.  (With a duplicate identifier the claim fails — see
`startComparison_dup_pending`.) -/
theorem startComparison_terminal (registry : List ModelInfo) (s0 : Session)
    (modelIds : List String) (behave : String → ModelBehavior) (trace : List Event)
    (hnd : modelIds.Nodup)
    (hI : Interleaves (modelIds.map (streamResponseEvents registry behave)) trace)
    (hok : (startComparisonStreaming registry s0 modelIds trace).thrown = none) :
    (∀ m ∈ modelIds, ∃ r,
        (startComparisonStreaming registry s0 modelIds trace).state.rows.filter
          (fun x => x.modelId = m) = [r]
        ∧ (r.status = RespStatus.completed ∨ r.status = RespStatus.error))
    ∧ ∀ r ∈ (startComparisonStreaming registry s0 modelIds trace).state.rows,
        r.status ≠ RespStatus.pending ∧ r.status ≠ RespStatus.streaming := by
  have hall : modelIds.all
      (fun m => (registry.find? (fun mi => mi.id = m)).isSome) = true := by
    by_contra hcon
    unfold startComparisonStreaming at hok
    rw [if_neg hcon] at hok
    simp at hok
  have hfound : ∀ m ∈ modelIds, (registry.find? (fun mi => mi.id = m)).isSome :=
    fun m hm => List.all_eq_true.mp hall m hm
  have hmid0 : (mkRows registry s0.id modelIds 0).map (fun r => r.modelId) = modelIds :=
    mkRows_map_modelId registry s0.id modelIds 0 hfound
  have hid0 : ((mkRows registry s0.id modelIds 0).map (fun r => r.id)).Nodup := by
    rw [mkRows_map_id registry s0.id modelIds 0 hfound]
    exact List.nodup_range' 0 modelIds.length 1
  have hmidnd : ((mkRows registry s0.id modelIds 0).map (fun r => r.modelId)).Nodup := by
    rw [hmid0]
    exact hnd
  have hrows : (startComparisonStreaming registry s0 modelIds trace).state.rows
      = (mkRows registry s0.id modelIds 0).map (fun r =>
          (trace.filter (fun e => e.modelId = r.modelId)).foldl applyEventToRow r) := by
    unfold startComparisonStreaming
    rw [if_pos hall]
    show trace.foldl
        (applyEvent ((mkRows registry s0.id modelIds 0).map (fun r => (r.modelId, r.id))))
        (mkRows registry s0.id modelIds 0) = _
    rw [foldl_applyEvent_eq _ trace _ rfl hid0 hmidnd]
    exact foldl_byModel_eq_map trace _
  have hterm : ∀ r ∈ (startComparisonStreaming registry s0 modelIds trace).state.rows,
      r.status = RespStatus.completed ∨ r.status = RespStatus.error := by
    intro r hr
    rw [hrows] at hr
    obtain ⟨r0, hr0, rfl⟩ := List.mem_map.mp hr
    have hm0 : r0.modelId ∈ modelIds := by
      rw [← hmid0]
      exact List.mem_map_of_mem _ hr0
    rw [trace_filter_eq registry behave hnd hI r0.modelId hm0]
    exact foldl_stream_status registry behave r0.modelId r0
  constructor
  · intro m hm
    have hcomp : ∀ r ∈ mkRows registry s0.id modelIds 0,
        ((fun x => x.modelId) ∘ fun r =>
          (trace.filter (fun e => e.modelId = r.modelId)).foldl applyEventToRow r) r
          = r.modelId :=
      fun r _ => foldl_applyEventToRow_modelId _ r
    have hmap : ((startComparisonStreaming registry s0 modelIds trace).state.rows.map
        (fun x => x.modelId)) = modelIds := by
      rw [hrows, List.map_map, List.map_congr_left hcomp]
      exact hmid0
    obtain ⟨r, hfl, hrin, hrm⟩ :=
      filter_modelId_singleton
        (startComparisonStreaming registry s0 modelIds trace).state.rows m
        (by rw [hmap]; exact hnd) (by rw [hmap]; exact hm)
    exact ⟨r, hfl, hterm r hrin⟩
  · intro r hr
    rcases hterm r hr with h | h <;> simp [h]

/-- C1 witness: the terminal-state theorem applied at a concrete single-model
run that streams one chunk and completes. -/
theorem startComparison_terminal_witness :
    (∀ m ∈ ["gpt-4"], ∃ r,
        (startComparisonStreaming regB sessionA ["gpt-4"] traceOk).state.rows.filter
          (fun x => x.modelId = m) = [r]
        ∧ (r.status = RespStatus.completed ∨ r.status = RespStatus.error))
    ∧ ∀ r ∈ (startComparisonStreaming regB sessionA ["gpt-4"] traceOk).state.rows,
        r.status ≠ RespStatus.pending ∧ r.status ≠ RespStatus.streaming :=
  startComparison_terminal regB sessionA ["gpt-4"] behaveOk traceOk (by decide)
    (by
      have hmap : ["gpt-4"].map (streamResponseEvents regB behaveOk) = [traceOk] := rfl
      rw [hmap]
      exact interleaves_singleton traceOk)
    (by decide)

/-- C1 counterexample: requesting the same model twice, the run resolves
without throwing, yet the first of the two created rows is never touched —
it remains `pending`, refuting the claim for lists with duplicates. -/
theorem startComparison_dup_pending :
    Interleaves (["gpt-4", "gpt-4"].map (streamResponseEvents regB behaveD)) traceD
    ∧ (startComparisonStreaming regB sessionA ["gpt-4", "gpt-4"] traceD).thrown = none
    ∧ ¬ (∀ r ∈ (startComparisonStreaming regB sessionA ["gpt-4", "gpt-4"] traceD).state.rows,
          r.status ≠ RespStatus.pending ∧ r.status ≠ RespStatus.streaming) := by
  refine ⟨?_, by decide, by decide⟩
  have hmap : ["gpt-4", "gpt-4"].map (streamResponseEvents regB behaveD)
      = [[cEvD], [cEvD]] := rfl
  rw [hmap]
  exact interleaves_append [cEvD] [[cEvD]] [cEvD] (interleaves_singleton [cEvD])

/-- C4: a response row starting from the empty text that receives its chunks
in order followed by one completion ends with exactly the concatenation of
those chunks — each contributed once, none lost — and in `completed`
status. -/
theorem response_text_concat (m : String) (cs : List String) (met : Metrics)
    (r0 : ModelResponse) (h0 : r0.response = "") :
    (((cs.map (Event.chunk m)) ++ [Event.complete m met]).foldl applyEventToRow r0).response
        = cs.foldr (fun a b => a ++ b) ""
    ∧ (((cs.map (Event.chunk m)) ++ [Event.complete m met]).foldl applyEventToRow r0).status
        = RespStatus.completed := by
  have hstep : ∀ (b : ModelResponse),
      [Event.complete m met].foldl applyEventToRow b = applyComplete b met :=
    fun b => rfl
  rw [List.foldl_append, hstep]
  refine ⟨?_, rfl⟩
  have hresp : (applyComplete ((cs.map (Event.chunk m)).foldl applyEventToRow r0) met).response
      = ((cs.map (Event.chunk m)).foldl applyEventToRow r0).response := rfl
  rw [hresp, foldl_chunks_response m cs r0, h0]
  rfl

/-- C4 witness: the concatenation theorem applied at a fresh row receiving two
chunks and a completion. -/
theorem response_text_concat_witness :
    (rowPend.response = "")
    ∧ (((["Rec", "ursion"].map (Event.chunk "gpt-4") ++ [Event.complete "gpt-4" metW]).foldl
          applyEventToRow rowPend).response
        = ["Rec", "ursion"].foldr (fun a b => a ++ b) ""
      ∧ ((["Rec", "ursion"].map (Event.chunk "gpt-4") ++ [Event.complete "gpt-4" metW]).foldl
          applyEventToRow rowPend).status = RespStatus.completed) :=
  ⟨rfl, response_text_concat "gpt-4" ["Rec", "ursion"] metW rowPend rfl⟩

/-- C5: when every requested model resolves but every invocation fails, the
run still resolves without throwing, the session ends `completed` — not
`failed` — and the recomputed aggregates are all zero. -/
theorem all_fail_session_completed (registry : List ModelInfo) (s0 : Session)
    (modelIds : List String) (behave : String → ModelBehavior) (trace : List Event)
    (hfound : ∀ m ∈ modelIds, (registry.find? (fun mi => mi.id = m)).isSome)
    (hfail : ∀ m ∈ modelIds, ∃ cs msg, behave m = ModelBehavior.fails cs msg)
    (hI : Interleaves (modelIds.map (streamResponseEvents registry behave)) trace) :
    (startComparisonStreaming registry s0 modelIds trace).thrown = none
    ∧ (startComparisonStreaming registry s0 modelIds trace).state.session.status
        = SessStatus.completed
    ∧ (startComparisonStreaming registry s0 modelIds trace).state.session.totalTokens = 0
    ∧ (startComparisonStreaming registry s0 modelIds trace).state.session.totalCost = 0
    ∧ (startComparisonStreaming registry s0 modelIds trace).state.session.averageResponseTime
        = 0 := by
  have hall : modelIds.all
      (fun m => (registry.find? (fun mi => mi.id = m)).isSome) = true :=
    List.all_eq_true.mpr hfound
  have hnc : ∀ e ∈ trace, e.isComplete = false := by
    intro e he
    obtain ⟨l, hl, hel⟩ := interleaves_mem hI e he
    obtain ⟨m, hm, rfl⟩ := List.mem_map.mp hl
    obtain ⟨cs, msg, hb⟩ := hfail m hm
    unfold streamResponseEvents at hel
    rw [if_pos (hfound m hm), hb] at hel
    rcases List.mem_append.mp hel with h | h
    · obtain ⟨c, _, rfl⟩ := List.mem_map.mp h
      rfl
    · simp only [List.mem_singleton] at h
      subst h
      rfl
  have hno : ∀ r ∈ trace.foldl
      (applyEvent ((mkRows registry s0.id modelIds 0).map (fun r => (r.modelId, r.id))))
      (mkRows registry s0.id modelIds 0), r.status ≠ RespStatus.completed := by
    apply foldl_no_complete _ trace hnc
    intro r hr
    rw [(mkRows_fields registry s0.id modelIds 0 r hr).2.1]
    simp
  have hz := updateSessionMetrics_no_completed s0.id
    (trace.foldl
      (applyEvent ((mkRows registry s0.id modelIds 0).map (fun r => (r.modelId, r.id))))
      (mkRows registry s0.id modelIds 0))
    { s0 with status := SessStatus.in_progress } hno
  unfold startComparisonStreaming
  rw [if_pos hall]
  exact ⟨rfl, rfl, hz.1, hz.2.1, hz.2.2⟩

/-- C5 witness: the all-fail theorem applied at a concrete run whose single
model fails at once with a rate-limit error. -/
theorem all_fail_session_completed_witness :
    (startComparisonStreaming regB sessionA ["gpt-4"] traceFail).thrown = none
    ∧ (startComparisonStreaming regB sessionA ["gpt-4"] traceFail).state.session.status
        = SessStatus.completed
    ∧ (startComparisonStreaming regB sessionA ["gpt-4"] traceFail).state.session.totalTokens = 0
    ∧ (startComparisonStreaming regB sessionA ["gpt-4"] traceFail).state.session.totalCost = 0
    ∧ (startComparisonStreaming regB sessionA ["gpt-4"] traceFail).state.session.averageResponseTime
        = 0 :=
  all_fail_session_completed regB sessionA ["gpt-4"] behaveFail traceFail
    (by decide) (fun m _ => ⟨[], "rate limit exceeded", rfl⟩)
    (by
      have hmap : ["gpt-4"].map (streamResponseEvents regB behaveFail) = [traceFail] := rfl
      rw [hmap]
      exact interleaves_singleton traceFail)

/-- C7 witness: the isolation theorem applied at two concrete two-model runs
differing only in the failure of `gpt-3.5-turbo`, with differently ordered
traces; the `gpt-4` deliveries coincide. -/
theorem stream_isolation_witness :
    ("gpt-4" ∈ ["gpt-4", "gpt-3.5-turbo"] ∧ ("gpt-4" : String) ≠ "gpt-3.5-turbo")
    ∧ trace71.filter (fun e => e.modelId = "gpt-4")
        = trace72.filter (fun e => e.modelId = "gpt-4") :=
  ⟨⟨by decide, by decide⟩,
    stream_isolation regB2 behaveOk behave72 "gpt-3.5-turbo"
      ["gpt-4", "gpt-3.5-turbo"] trace71 trace72 (by decide)
      (by decide)
      (by
        have hmap : ["gpt-4", "gpt-3.5-turbo"].map (streamResponseEvents regB2 behaveOk)
            = [[chunk4, comp4], [chunk35, comp35]] := rfl
        rw [hmap]
        exact interleaves_append [chunk4, comp4] [[chunk35, comp35]] [chunk35, comp35]
          (interleaves_singleton [chunk35, comp35]))
      (by
        have hmap : ["gpt-4", "gpt-3.5-turbo"].map (streamResponseEvents regB2 behave72)
            = [[chunk4, comp4], [err35]] := rfl
        rw [hmap]
        refine Interleaves.cons _ 1 err35 [] [chunk4, comp4] rfl ?_
        exact interleaves_append [chunk4, comp4] [[]] []
          (Interleaves.nil [[]] (by simp)))
      "gpt-4" (by decide) (by decide)⟩

/-- C7 counterexample: with the model list holding `gpt-4` twice, two runs
differing only in the failure of `gpt-3.5-turbo` can deliver the `gpt-4`
events in different orders — the two copies of the stream interleave freely —
refuting the claim for lists with duplicates. -/
theorem stream_isolation_dup_cex :
    Interleaves
      (["gpt-4", "gpt-4", "gpt-3.5-turbo"].map (streamResponseEvents regB2 behaveOk)) trace73
    ∧ Interleaves
      (["gpt-4", "gpt-4", "gpt-3.5-turbo"].map (streamResponseEvents regB2 behave72)) trace74
    ∧ (∀ m ∈ ["gpt-4", "gpt-4", "gpt-3.5-turbo"], m ≠ "gpt-3.5-turbo" →
        behaveOk m = behave72 m)
    ∧ ("gpt-4" ∈ ["gpt-4", "gpt-4", "gpt-3.5-turbo"] ∧ ("gpt-4" : String) ≠ "gpt-3.5-turbo")
    ∧ trace73.filter (fun e => e.modelId = "gpt-4")
        ≠ trace74.filter (fun e => e.modelId = "gpt-4") := by
  refine ⟨?_, ?_, by decide, ⟨by decide, by decide⟩, by decide⟩
  · have hmap : ["gpt-4", "gpt-4", "gpt-3.5-turbo"].map (streamResponseEvents regB2 behaveOk)
        = [[chunk4, comp4], [chunk4, comp4], [chunk35, comp35]] := rfl
    rw [hmap]
    exact interleaves_append [chunk4, comp4] _ _
      (interleaves_append [chunk4, comp4] _ _
        (interleaves_singleton [chunk35, comp35]))
  · have hmap : ["gpt-4", "gpt-4", "gpt-3.5-turbo"].map (streamResponseEvents regB2 behave72)
        = [[chunk4, comp4], [chunk4, comp4], [err35]] := rfl
    rw [hmap]
    refine Interleaves.cons _ 0 chunk4 [comp4] _ rfl ?_
    refine Interleaves.cons _ 1 chunk4 [comp4] _ rfl ?_
    refine Interleaves.cons _ 0 comp4 [] _ rfl ?_
    refine Interleaves.cons _ 1 comp4 [] _ rfl ?_
    refine Interleaves.cons _ 2 err35 [] _ rfl ?_
    exact Interleaves.nil _ (by simp)

end AIPG
